import Mathlib

/-
Verification of the majority-illusion engine (experiment.py and ba.py).

The two source files share their core algorithms.  Shallow embedding used
here:

* a networkx graph becomes a `Graph`: an explicit node list together with a
  neighbor-list function (Python dict iteration over the graph's nodes is
  the node list; `G.neighbors(v)` is `G.adj v`);
* an opinion dictionary over the graph's nodes becomes a total function
  `Nat → Label`; every operation of the source reads it only at graph
  nodes and their neighbors, and dictionary equality tests are modelled as
  pointwise equality over the node list (`sameOnNodes`);
* Python's exact float comparisons with the threshold phi = 0.5
  (`red_nbrs > 0.5 * degree`) are modelled by the exact integer
  inequality `2 * red_nbrs > degree`, which is equivalent because 0.5 and
  small integers are exactly representable;
* fractions (the minority_fracs entries) are modelled as rationals and
  Python's `int()` conversion of a nonnegative value as `Int.toNat ∘ Int.floor`;
* `random.sample(rest, extra)` is an explicit `sample` parameter, with the
  properties Python guarantees for it (drawn without replacement from the
  non-minority population) as hypotheses where they are needed;
* a Python set of nodes is an explicit duplicate-free list recording one
  iteration order of that set (CPython set iteration order is an
  implementation detail, so it is kept as an input of the model);
* the raised-exception behaviour of the influencer selector is modelled
  with `Except PyError`.
-/

/-- The two opinion labels: Red is the minority opinion, Blue the majority. -/
inductive Label where
  | Red : Label
  | Blue : Label
  deriving DecidableEq, Repr

/-- A graph as both source files consume it: the list of nodes (in Python
iteration order) and the neighbor list of each node. -/
structure Graph where
  nodes : List Nat
  adj : Nat → List Nat

/-- Python's `G.degree(v)` = number of neighbors. -/
def Graph.deg (G : Graph) (v : Nat) : Nat := (G.adj v).length

/-- Python's `sum(op == 'Red' for op in ...)` over a list of nodes. -/
def countRed (l : List Nat) (opinions : Nat → Label) : Nat :=
  l.countP fun v => decide (opinions v = Label.Red)

/-- Errors a Python run can raise in the modelled fragment. -/
inductive PyError where
  | zeroDivisionError : PyError
  deriving DecidableEq, Repr

/-- Sum of all node degrees, `sum(dict(G.degree()).values())`. -/
def sumDeg (G : Graph) : Nat := (G.nodes.map G.deg).sum

/-- experiment.py lines 16-20 and ba.py lines 14-21: nodes whose degree
strictly exceeds twice the average degree.  Python first divides by
`G.number_of_nodes()`, which raises ZeroDivisionError on an empty graph;
the comparison `d > 2 * (sumDeg / n)` is modelled by the equivalent exact
form `n * d > 2 * sumDeg` (the float division is a modelling
simplification to exact arithmetic; it is irrelevant to the empty case). -/
def identify_influencers_by_threshold (G : Graph) : Except PyError (List Nat) :=
  if G.nodes.length = 0 then Except.error PyError.zeroDivisionError
  else Except.ok (G.nodes.filter fun v => decide (G.nodes.length * G.deg v > 2 * sumDeg G))

/-- experiment.py lines 22-39 (identically ba.py lines 23-40): global
majority label and the list of nodes under strict majority illusion.
The source loop with its two `continue` branches is the filter by the
conjunction of the three conditions. -/
def static_majority_illusion (G : Graph) (opinions : Nat → Label) : Label × List Nat :=
  let red := countRed G.nodes opinions
  let blue := G.nodes.length - red
  let globalMaj := if red > blue then Label.Red else Label.Blue
  let illusion := G.nodes.filter fun v =>
    let nbrs := G.adj v
    let r := countRed nbrs opinions
    let b := nbrs.length - r
    decide (nbrs ≠ []) && decide (r ≠ b) &&
      decide ((if r > b then Label.Red else Label.Blue) ≠ globalMaj)
  (globalMaj, illusion)

/-- experiment.py lines 48-61: synchronous reversible majority-vote update.
Python rebuilds `new_op` from the current `opinions`, so the update is a
pure function of the current labeling. -/
def majority_vote_update (G : Graph) (opinions : Nat → Label) : Nat → Label :=
  fun v =>
    let nbrs := G.adj v
    if nbrs = [] then opinions v
    else
      let r := countRed nbrs opinions
      let b := nbrs.length - r
      if r > b then Label.Red
      else if b > r then Label.Blue
      else opinions v

/-- ba.py lines 69-74: one-way threshold adoption.  `new_op` starts as a
copy of `opinions` and only Blue nodes with `red_nbrs > phi * degree`
(phi = 0.5, modelled exactly as `2 * red_nbrs > degree`) flip to Red. -/
def threshold_update (G : Graph) (opinions : Nat → Label) : Nat → Label :=
  fun v =>
    if opinions v = Label.Blue then
      if 2 * countRed (G.adj v) opinions > G.deg v then Label.Red
      else opinions v
    else opinions v

/-- Python's `new_op == opinions`: both dicts range over the graph's
nodes, so equality is pointwise over the node list. -/
def sameOnNodes (G : Graph) (f g : Nat → Label) : Bool :=
  G.nodes.all fun v => decide (f v = g v)

/-- The shared loop body of `dynamic_simulation` in both files
(experiment.py lines 41-65 and ba.py lines 61-78), parametrised by the
per-round update rule.  Each iteration first appends the current illusion
count, then computes the synchronous update and stops if nothing changed. -/
def sim_go (G : Graph) (upd : (Nat → Label) → Nat → Label) :
    Nat → (Nat → Label) → List Nat → List Nat × (Nat → Label)
  | 0, opinions, series => (series, opinions)
  | fuel + 1, opinions, series =>
    let series' := series ++ [(static_majority_illusion G opinions).2.length]
    let newOp := upd opinions
    if sameOnNodes G newOp opinions then (series', opinions)
    else sim_go G upd fuel newOp series'

/-- The round cap configured in both files. -/
def max_rounds : Nat := 50

/-- experiment.py lines 41-65: reversible majority-vote dynamics. -/
def dynamic_simulation (G : Graph) (opinions_init : Nat → Label) :
    List Nat × (Nat → Label) :=
  sim_go G (majority_vote_update G) max_rounds opinions_init []

/-- ba.py lines 61-78: one-way threshold dynamics. -/
def ba_dynamic_simulation (G : Graph) (opinions_init : Nat → Label) :
    List Nat × (Nat → Label) :=
  sim_go G (threshold_update G) max_rounds opinions_init []

/-- Mirror of the control flow of `sim_go`: true exactly when the loop
stops through the no-change break rather than by exhausting the cap. -/
def sim_breaks (G : Graph) (upd : (Nat → Label) → Nat → Label) :
    Nat → (Nat → Label) → Bool
  | 0, _ => false
  | fuel + 1, opinions =>
    let newOp := upd opinions
    if sameOnNodes G newOp opinions then true
    else sim_breaks G upd fuel newOp

/-- experiment.py lines 138-152 (batch copy: lines 182-192): the minority
list built from the influencer set, the target fraction and, in the fill
branch, the random sample.  `target = int(frac * N)` is floor-then-toNat
on the exact rational product.  `sorted(..., key=degree, reverse=True)` is
a stable sort, modelled by `insertionSort` with the total preorder
comparing degrees downward, applied to the influencer list in its Python
set-iteration order. -/
def minority_list (G : Graph) (influencers : List Nat) (frac : ℚ)
    (sample : List Nat) : List Nat :=
  let target := (Int.floor (frac * (G.nodes.length : ℚ))).toNat
  if influencers.length > target then
    (List.insertionSort (fun a b => G.deg b ≤ G.deg a) influencers).take target
  else influencers ++ sample

/-- experiment.py line 153 (batch copy: line 193): Red on the minority
list, Blue elsewhere. -/
def assign_opinions (G : Graph) (influencers : List Nat) (frac : ℚ)
    (sample : List Nat) : Nat → Label :=
  fun v => if v ∈ minority_list G influencers frac sample then Label.Red else Label.Blue

/-- Modelled from the spec (refinement comparison for the capping rule,
which the source expresses only through an unkeyed stable sort): rank
influencers by degree descending with the node identifier ascending as the
deterministic secondary key, and keep the top `target` of them. -/
def spec_top_influencers (G : Graph) (influencers : List Nat) (target : Nat) : List Nat :=
  (List.insertionSort
    (fun a b => G.deg b < G.deg a ∨ (G.deg a = G.deg b ∧ a ≤ b)) influencers).take target

/-- The empty graph (zero nodes). -/
def emptyG : Graph := ⟨[], fun _ => []⟩

/-- A single isolated node. -/
def oneNodeG : Graph := ⟨[0], fun _ => []⟩

/-- Two isolated nodes. -/
def twoNodeG : Graph := ⟨[0, 1], fun _ => []⟩

/-- Three isolated nodes. -/
def threeNodeG : Graph := ⟨[0, 1, 2], fun _ => []⟩

/-- Four isolated nodes. -/
def fourNodeG : Graph := ⟨[0, 1, 2, 3], fun _ => []⟩

/-- Neighbor lists of a two-node path on nodes 1 and 2. -/
def pairAdj : Nat → List Nat
  | 1 => [2]
  | 2 => [1]
  | _ => []

/-- A two-node path on nodes 1 and 2. -/
def pairG : Graph := ⟨[1, 2], pairAdj⟩

/-- Labeling with node 0 Red, the rest Blue. -/
def firstRed : Nat → Label
  | 0 => Label.Red
  | _ => Label.Blue

/-- Labeling with nodes 0 and 1 Red, the rest Blue. -/
def firstTwoRed : Nat → Label
  | 0 => Label.Red
  | 1 => Label.Red
  | _ => Label.Blue

/-- All-Blue labeling. -/
def allBlue : Nat → Label := fun _ => Label.Blue

/-- All-Red labeling. -/
def allRed : Nat → Label := fun _ => Label.Red

/-- Neighbor lists of the oscillator graph: a path 1 - 0 - 2 plus a
separate edge 3 - 4. -/
def oscAdj : Nat → List Nat
  | 0 => [1, 2]
  | 1 => [0]
  | 2 => [0]
  | 3 => [4]
  | 4 => [3]
  | _ => []

/-- The oscillator graph: under reversible majority vote, starting from
`firstRed`, the labeling has period two and never reaches a fixed point. -/
def oscG : Graph := ⟨[0, 1, 2, 3, 4], oscAdj⟩

/-- Second phase of the oscillation on `oscG`: nodes 1 and 2 Red. -/
def oscPhase1 : Nat → Label
  | 1 => Label.Red
  | 2 => Label.Red
  | _ => Label.Blue

/-- Counting the members of a duplicate-free sublist inside a
duplicate-free list gives the sublist's length. -/
theorem countP_mem_eq_length (nodes m : List Nat) (hn : nodes.Nodup) (hm : m.Nodup)
    (hsub : ∀ v ∈ m, v ∈ nodes) :
    (nodes.countP fun v => decide (v ∈ m)) = m.length := by
  rw [List.countP_eq_length_filter]
  have h1 : (nodes.filter fun v => decide (v ∈ m)).Nodup := hn.filter _
  have h2 : (nodes.filter fun v => decide (v ∈ m)).toFinset = m.toFinset := by
    ext x
    simp only [List.mem_toFinset, List.mem_filter, decide_eq_true_eq]
    exact ⟨fun h => h.2, fun h => ⟨hsub x h, h⟩⟩
  calc (nodes.filter fun v => decide (v ∈ m)).length
      = (nodes.filter fun v => decide (v ∈ m)).toFinset.card :=
        (List.toFinset_card_of_nodup h1).symm
    _ = m.toFinset.card := by rw [h2]
    _ = m.length := List.toFinset_card_of_nodup hm

/-- A strictly monotone version of countP monotonicity: if one listed
element newly satisfies the predicate, the count strictly grows. -/
theorem countP_lt_of_newly_true (l : List Nat) (p q : Nat → Bool)
    (hmono : ∀ x ∈ l, p x = true → q x = true) (v : Nat) (hv : v ∈ l)
    (hp : p v = false) (hq : q v = true) : l.countP p < l.countP q := by
  induction l with
  | nil => cases hv
  | cons a tl ih =>
    rw [List.countP_cons, List.countP_cons]
    have htl : ∀ x ∈ tl, p x = true → q x = true :=
      fun x hx => hmono x (List.mem_cons_of_mem _ hx)
    rcases List.mem_cons.mp hv with rfl | hvtl
    · have hle : tl.countP p ≤ tl.countP q := List.countP_mono_left htl
      rw [hp, hq]
      simp only [Bool.false_eq_true, if_false, if_true]
      omega
    · have hlt := ih htl hvtl
      have hpa := hmono a (List.mem_cons_self a tl)
      cases hpab : p a with
      | false => cases hqa : q a <;> simp <;> omega
      | true =>
        rw [hpa hpab]
        simp only [hpab, if_true]
        omega

/-- C9: calling the influencer selector on a zero-node graph does not
produce a typed precondition-violation failure: it propagates the raw
numeric ZeroDivisionError raised by the average-degree division
(experiment.py line 18, ba.py line 16). -/
theorem influencers_empty_graph_zero_division :
    identify_influencers_by_threshold emptyG =
      Except.error PyError.zeroDivisionError := rfl

/-- C2: when the Red (Minority) and Blue (Majority) counts are exactly
equal, the strict comparison `red > blue` is false, so the detector
returns Blue (Majority) as the global majority label. -/
theorem global_tie_resolves_to_blue (G : Graph) (op : Nat → Label)
    (h : countRed G.nodes op = G.nodes.length - countRed G.nodes op) :
    (static_majority_illusion G op).1 = Label.Blue := by
  show (if countRed G.nodes op > G.nodes.length - countRed G.nodes op
      then Label.Red else Label.Blue) = Label.Blue
  rw [if_neg (by omega)]

/-- Witness for C2 on two isolated nodes, one Red and one Blue. -/
theorem global_tie_resolves_to_blue_w :
    countRed twoNodeG.nodes firstRed =
      twoNodeG.nodes.length - countRed twoNodeG.nodes firstRed ∧
    (static_majority_illusion twoNodeG firstRed).1 = Label.Blue :=
  ⟨by decide, global_tie_resolves_to_blue twoNodeG firstRed (by decide)⟩

/-- C1 counterexample: with an exact global tie (one Red, one Blue on two
nodes) the detector returns Blue, not Red, so Minority is not the default
winner of the label-count comparison. -/
theorem tie_minority_default_cex :
    2 * countRed twoNodeG.nodes firstRed = twoNodeG.nodes.length ∧
    (static_majority_illusion twoNodeG firstRed).1 ≠ Label.Red := by decide

/-- C1 amended: on an exact global label-count tie the detector treats
Majority (Blue), not Minority (Red), as the default winner. -/
theorem tie_majority_default (G : Graph) (op : Nat → Label)
    (h : 2 * countRed G.nodes op = G.nodes.length) :
    (static_majority_illusion G op).1 = Label.Blue := by
  show (if countRed G.nodes op > G.nodes.length - countRed G.nodes op
      then Label.Red else Label.Blue) = Label.Blue
  rw [if_neg (by omega)]

/-- Witness for the amended C1 on four isolated nodes, two Red. -/
theorem tie_majority_default_w :
    2 * countRed fourNodeG.nodes firstTwoRed = fourNodeG.nodes.length ∧
    (static_majority_illusion fourNodeG firstTwoRed).1 = Label.Blue :=
  ⟨by decide, tie_majority_default fourNodeG firstTwoRed (by decide)⟩

/-- C6: the illusion list contains exactly the graph nodes with at least
one neighbor, a non-tied neighborhood, and a local majority different
from the returned global majority; isolated or locally tied nodes are
never in it. -/
theorem illusion_membership (G : Graph) (op : Nat → Label) (v : Nat) :
    v ∈ (static_majority_illusion G op).2 ↔
      v ∈ G.nodes ∧ G.adj v ≠ [] ∧
      countRed (G.adj v) op ≠ (G.adj v).length - countRed (G.adj v) op ∧
      (if countRed (G.adj v) op > (G.adj v).length - countRed (G.adj v) op
        then Label.Red else Label.Blue) ≠ (static_majority_illusion G op).1 := by
  simp only [static_majority_illusion, List.mem_filter, Bool.and_eq_true,
    decide_eq_true_eq, and_assoc]

/-- The one-way threshold rule keeps Red nodes Red. -/
theorem threshold_update_preserves_red (G : Graph) (op : Nat → Label) (v : Nat)
    (h : op v = Label.Red) : threshold_update G op v = Label.Red := by
  unfold threshold_update
  rw [if_neg (by rw [h]; intro hc; cases hc)]
  exact h

/-- A node changed by the one-way threshold rule was Blue and became Red. -/
theorem threshold_update_change (G : Graph) (op : Nat → Label) (v : Nat)
    (h : threshold_update G op v ≠ op v) :
    op v = Label.Blue ∧ threshold_update G op v = Label.Red := by
  cases hov : op v with
  | Red => exact absurd (threshold_update_preserves_red G op v hov) (hov ▸ h)
  | Blue =>
    refine ⟨rfl, ?_⟩
    unfold threshold_update at h ⊢
    rw [if_pos hov] at h ⊢
    by_cases hc : 2 * countRed (G.adj v) op > G.deg v
    · rw [if_pos hc]
    · rw [if_neg hc] at h
      exact absurd rfl h

/-- C7: the one-way threshold update never relabels a Red (Minority) node
to Blue, and hence the Red count is non-decreasing from each round to the
next throughout the simulation. -/
theorem threshold_red_monotone (G : Graph) (op : Nat → Label) :
    (∀ v, op v = Label.Red → threshold_update G op v = Label.Red) ∧
    ∀ t, countRed G.nodes ((threshold_update G)^[t] op) ≤
      countRed G.nodes ((threshold_update G)^[t + 1] op) := by
  refine ⟨fun v => threshold_update_preserves_red G op v, fun t => ?_⟩
  rw [Function.iterate_succ_apply']
  apply List.countP_mono_left
  intro v _ hv
  simp only [decide_eq_true_eq] at hv ⊢
  exact threshold_update_preserves_red G _ v hv

/-- Witness for C7: a Red node on the two-node path stays Red, and the
Red count does not drop over the first round. -/
theorem threshold_red_monotone_w :
    allRed 1 = Label.Red ∧ threshold_update pairG allRed 1 = Label.Red ∧
    countRed pairG.nodes ((threshold_update pairG)^[0] allRed) ≤
      countRed pairG.nodes ((threshold_update pairG)^[0 + 1] allRed) :=
  ⟨rfl, (threshold_red_monotone pairG allRed).1 1 rfl,
    (threshold_red_monotone pairG allRed).2 0⟩

/-- C8: iterating the one-way threshold update reaches a labeling that the
next round leaves unchanged on the graph's nodes, within at most N rounds
(N = number of nodes), independently of the defensive round cap. -/
theorem threshold_fixed_point_within_n (G : Graph) (op : Nat → Label) :
    ∃ t ≤ G.nodes.length, ∀ v ∈ G.nodes,
      threshold_update G ((threshold_update G)^[t] op) v =
        (threshold_update G)^[t] op v := by
  by_contra hcon
  push_neg at hcon
  have strict : ∀ o : Nat → Label, ∀ v ∈ G.nodes, threshold_update G o v ≠ o v →
      countRed G.nodes o < countRed G.nodes (threshold_update G o) := by
    intro o v hvm hv
    obtain ⟨hb, hr⟩ := threshold_update_change G o v hv
    refine countP_lt_of_newly_true G.nodes _ _ ?_ v hvm ?_ ?_
    · intro x _ hx
      simp only [decide_eq_true_eq] at hx ⊢
      exact threshold_update_preserves_red G o x hx
    · simp [hb]
    · simp [hr]
  have grow : ∀ t, t ≤ G.nodes.length + 1 →
      t ≤ countRed G.nodes ((threshold_update G)^[t] op) := by
    intro t
    induction t with
    | zero => intro _; exact Nat.zero_le _
    | succ t ih =>
      intro h
      have h1 : t ≤ G.nodes.length := by omega
      have h2 := ih (by omega)
      obtain ⟨v, hvm, hvne⟩ := hcon t h1
      have h3 := strict _ v hvm hvne
      rw [Function.iterate_succ_apply']
      omega
  have hbound : countRed G.nodes ((threshold_update G)^[G.nodes.length + 1] op) ≤
      G.nodes.length := List.countP_le_length _
  have := grow (G.nodes.length + 1) (le_refl _)
  omega

/-- The simulation loop never shrinks the accumulated series. -/
theorem sim_go_length_mono (G : Graph) (upd : (Nat → Label) → Nat → Label) :
    ∀ (fuel : Nat) (op : Nat → Label) (acc : List Nat),
      acc.length ≤ (sim_go G upd fuel op acc).1.length := by
  intro fuel
  induction fuel with
  | zero => intro op acc; exact le_refl _
  | succ f ih =>
    intro op acc
    simp only [sim_go]
    by_cases hc : sameOnNodes G (upd op) op = true
    · rw [if_pos hc]
      simp
    · rw [if_neg hc]
      calc acc.length ≤ (acc ++ [(static_majority_illusion G op).2.length]).length := by simp
        _ ≤ _ := ih _ _

/-- Each loop iteration consumes fuel, so at most `fuel` entries are added. -/
theorem sim_go_length_le (G : Graph) (upd : (Nat → Label) → Nat → Label) :
    ∀ (fuel : Nat) (op : Nat → Label) (acc : List Nat),
      (sim_go G upd fuel op acc).1.length ≤ acc.length + fuel := by
  intro fuel
  induction fuel with
  | zero => intro op acc; simp [sim_go]
  | succ f ih =>
    intro op acc
    simp only [sim_go]
    by_cases hc : sameOnNodes G (upd op) op = true
    · rw [if_pos hc]
      simp
    · rw [if_neg hc]
      calc (sim_go G upd f (upd op) (acc ++ [(static_majority_illusion G op).2.length])).1.length
          ≤ (acc ++ [(static_majority_illusion G op).2.length]).length + f := ih _ _
        _ ≤ acc.length + (f + 1) := by simp; omega

/-- With at least one unit of fuel, at least one entry is appended before
any break can fire. -/
theorem sim_go_length_ge_one (G : Graph) (upd : (Nat → Label) → Nat → Label)
    (f : Nat) (op : Nat → Label) (acc : List Nat) :
    acc.length + 1 ≤ (sim_go G upd (f + 1) op acc).1.length := by
  simp only [sim_go]
  by_cases hc : sameOnNodes G (upd op) op = true
  · rw [if_pos hc]
    simp
  · rw [if_neg hc]
    calc acc.length + 1 = (acc ++ [(static_majority_illusion G op).2.length]).length := by simp
      _ ≤ _ := sim_go_length_mono G upd _ _ _

/-- C10: both simulators return an illusion series with at least one and
at most max_rounds = 50 entries, so the callers' accesses to its last
entry and its maximum are always defined. -/
theorem illusion_series_length_bounds (G : Graph) (op : Nat → Label) :
    (dynamic_simulation G op).1 ≠ [] ∧
    (dynamic_simulation G op).1.length ≤ max_rounds ∧
    (ba_dynamic_simulation G op).1 ≠ [] ∧
    (ba_dynamic_simulation G op).1.length ≤ max_rounds := by
  have h1 := sim_go_length_ge_one G (majority_vote_update G) 49 op []
  have h2 := sim_go_length_le G (majority_vote_update G) max_rounds op []
  have h3 := sim_go_length_ge_one G (threshold_update G) 49 op []
  have h4 := sim_go_length_le G (threshold_update G) max_rounds op []
  refine ⟨?_, h2, ?_, h4⟩
  · have : 0 < (dynamic_simulation G op).1.length := h1
    exact List.ne_nil_of_length_pos this
  · have : 0 < (ba_dynamic_simulation G op).1.length := h3
    exact List.ne_nil_of_length_pos this

/-- Unfolding one non-converged loop iteration. -/
theorem sim_go_round (G : Graph) (upd : (Nat → Label) → Nat → Label)
    (fuel : Nat) (op : Nat → Label) (acc : List Nat)
    (h : sameOnNodes G (upd op) op = false) :
    sim_go G upd (fuel + 1) op acc =
      sim_go G upd fuel (upd op)
        (acc ++ [(static_majority_illusion G op).2.length]) := by
  simp only [sim_go, h]
  rfl

/-- If the loop stops through the no-change break, the last series entry
is the illusion count of the labeling it returns. -/
theorem sim_go_breaks_getLast (G : Graph) (upd : (Nat → Label) → Nat → Label) :
    ∀ (fuel : Nat) (op : Nat → Label) (acc : List Nat),
      sim_breaks G upd fuel op = true →
      (sim_go G upd fuel op acc).1.getLast? =
        some (static_majority_illusion G (sim_go G upd fuel op acc).2).2.length := by
  intro fuel
  induction fuel with
  | zero =>
    intro op acc h
    exact absurd h (by simp [sim_breaks])
  | succ f ih =>
    intro op acc h
    simp only [sim_breaks] at h
    simp only [sim_go]
    by_cases hc : sameOnNodes G (upd op) op = true
    · rw [if_pos hc]
      show (acc ++ [(static_majority_illusion G op).2.length]).getLast? = _
      rw [List.getLast?_concat]
    · rw [if_neg hc] at h ⊢
      exact ih (upd op) _ h

/-- C4 amended: whenever the reversible majority-vote simulation stops
through the no-change break (rather than by exhausting the round cap),
the last entry of the illusion series equals the illusion-set size of the
final labeling it returns. -/
theorem final_entry_on_break (G : Graph) (op : Nat → Label)
    (h : sim_breaks G (majority_vote_update G) max_rounds op = true) :
    (dynamic_simulation G op).1.getLast? =
      some (static_majority_illusion G (dynamic_simulation G op).2).2.length :=
  sim_go_breaks_getLast G (majority_vote_update G) max_rounds op [] h

/-- Witness for the amended C4: a single isolated Blue node converges in
the first round. -/
theorem final_entry_on_break_w :
    sim_breaks oneNodeG (majority_vote_update oneNodeG) max_rounds allBlue = true ∧
    (dynamic_simulation oneNodeG allBlue).1.getLast? =
      some (static_majority_illusion oneNodeG
        (dynamic_simulation oneNodeG allBlue).2).2.length :=
  ⟨by decide, final_entry_on_break oneNodeG allBlue (by decide)⟩

/-- One synchronous majority-vote round on the oscillator flips phase 0
to phase 1. -/
theorem osc_step01 : majority_vote_update oscG firstRed = oscPhase1 := by
  funext v
  match v with
  | 0 => rfl
  | 1 => rfl
  | 2 => rfl
  | 3 => rfl
  | 4 => rfl
  | n + 5 => rfl

/-- One synchronous majority-vote round on the oscillator flips phase 1
back to phase 0. -/
theorem osc_step10 : majority_vote_update oscG oscPhase1 = firstRed := by
  funext v
  match v with
  | 0 => rfl
  | 1 => rfl
  | 2 => rfl
  | 3 => rfl
  | 4 => rfl
  | n + 5 => rfl

/-- Two loop iterations on the oscillator append illusion counts 2 and 1
and return to phase 0. -/
theorem osc_two_rounds (fuel : Nat) (acc : List Nat) :
    sim_go oscG (majority_vote_update oscG) (fuel + 2) firstRed acc =
      sim_go oscG (majority_vote_update oscG) fuel firstRed (acc ++ [2, 1]) := by
  have h1 : sameOnNodes oscG (majority_vote_update oscG firstRed) firstRed = false := by
    rw [osc_step01]; rfl
  have h2 : sameOnNodes oscG (majority_vote_update oscG oscPhase1) oscPhase1 = false := by
    rw [osc_step10]; rfl
  show sim_go oscG (majority_vote_update oscG) (fuel + 1 + 1) firstRed acc = _
  rw [sim_go_round oscG (majority_vote_update oscG) (fuel + 1) firstRed acc h1]
  rw [osc_step01,
    show (static_majority_illusion oscG firstRed).2.length = 2 from rfl]
  rw [sim_go_round oscG (majority_vote_update oscG) fuel oscPhase1 (acc ++ [2]) h2]
  rw [osc_step10,
    show (static_majority_illusion oscG oscPhase1).2.length = 1 from rfl,
    List.append_assoc]
  rfl

/-- Any even, positive amount of fuel drives the oscillator through full
periods: the series ends with illusion count 1, and the returned labeling
is phase 0 again. -/
theorem osc_run (k : Nat) : ∀ acc : List Nat,
    (sim_go oscG (majority_vote_update oscG) (2 * (k + 1)) firstRed acc).1.getLast? =
      some 1 ∧
    (sim_go oscG (majority_vote_update oscG) (2 * (k + 1)) firstRed acc).2 = firstRed := by
  induction k with
  | zero =>
    intro acc
    have h2 : (2 : Nat) * (0 + 1) = 0 + 2 := by norm_num
    rw [h2, osc_two_rounds 0 acc]
    constructor
    · show (acc ++ [2, 1]).getLast? = some 1
      rw [show acc ++ [2, 1] = (acc ++ [2]) ++ [1] by rw [List.append_assoc]; rfl]
      exact List.getLast?_concat _
    · rfl
  | succ k ih =>
    intro acc
    have h2 : 2 * (k + 1 + 1) = 2 * (k + 1) + 2 := by ring
    rw [h2, osc_two_rounds (2 * (k + 1)) acc]
    exact ih (acc ++ [2, 1])

/-- C4 counterexample: on the oscillator graph the reversible simulation
exhausts the round cap; the last series entry is 1, while the final
labeling it returns has illusion-set size 2. -/
theorem final_entry_cap_cex :
    (dynamic_simulation oscG firstRed).1.getLast? = some 1 ∧
    (static_majority_illusion oscG (dynamic_simulation oscG firstRed).2).2.length = 2 := by
  have h := osc_run 24 []
  have e : dynamic_simulation oscG firstRed =
      sim_go oscG (majority_vote_update oscG) (2 * (24 + 1)) firstRed [] := rfl
  rw [e]
  exact ⟨h.1, by rw [h.2]; rfl⟩

/-- C3 counterexample: three nodes, influencer iteration order [0, 1],
fraction 1/2.  Python's `int(0.5 * 3) = 1` caps the minority at one node,
while round(0.5 * 3) = 2, so the labeling does not have round(frac * N)
Red nodes. -/
theorem minority_count_round_cex :
    countRed threeNodeG.nodes (assign_opinions threeNodeG [0, 1] (1/2) []) = 1 ∧
    round ((1/2 : ℚ) * (threeNodeG.nodes.length : ℚ)) = 2 := by
  constructor
  · have h : (Int.floor ((1/2 : ℚ) * (threeNodeG.nodes.length : ℚ))).toNat = 1 := by
      norm_num [threeNodeG]
    have hm : minority_list threeNodeG [0, 1] (1/2) [] = [0] := by
      simp only [minority_list, h]
      decide
    unfold countRed assign_opinions
    rw [hm]
    decide
  · norm_num [threeNodeG, round_eq]

/-- C3 amended: the initial labeling has exactly int(frac * N) (floor,
Python truncation) Red nodes, in every branch of the assignment: capping,
exact match, or random fill.  The hypotheses state that the influencer
set and the random sample are what Python guarantees: duplicate-free node
subsets, the sample disjoint from the influencers and of size
target - len(influencers) whenever the fill branch is taken. -/
theorem minority_count_is_floor_target (G : Graph) (influencers : List Nat)
    (frac : ℚ) (sample : List Nat)
    (_hfrac0 : 0 ≤ frac) (_hfrac1 : frac ≤ 1)
    (hnodes : G.nodes.Nodup) (hinf : influencers.Nodup)
    (hsubI : ∀ v ∈ influencers, v ∈ G.nodes)
    (hsnd : sample.Nodup) (hsubS : ∀ v ∈ sample, v ∈ G.nodes)
    (hdisj : ∀ v ∈ sample, v ∉ influencers)
    (hlen : influencers.length ≤ (Int.floor (frac * (G.nodes.length : ℚ))).toNat →
      sample.length =
        (Int.floor (frac * (G.nodes.length : ℚ))).toNat - influencers.length) :
    countRed G.nodes (assign_opinions G influencers frac sample) =
      (Int.floor (frac * (G.nodes.length : ℚ))).toNat := by
  set target := (Int.floor (frac * (G.nodes.length : ℚ))).toNat with htarget
  have hpred : countRed G.nodes (assign_opinions G influencers frac sample) =
      G.nodes.countP fun v => decide (v ∈ minority_list G influencers frac sample) := by
    unfold countRed assign_opinions
    apply List.countP_congr
    intro x _
    by_cases hxm : x ∈ minority_list G influencers frac sample <;> simp [hxm]
  rw [hpred]
  have key : ∀ m : List Nat, m.Nodup → (∀ v ∈ m, v ∈ G.nodes) → m.length = target →
      (G.nodes.countP fun v => decide (v ∈ m)) = target := by
    intro m h1 h2 h3
    rw [countP_mem_eq_length G.nodes m hnodes h1 h2, h3]
  by_cases hbr : influencers.length > target
  · have hm : minority_list G influencers frac sample =
        (List.insertionSort (fun a b => G.deg b ≤ G.deg a) influencers).take target := by
      unfold minority_list
      rw [← htarget, if_pos hbr]
    rw [hm]
    have hsortnd : (List.insertionSort (fun a b => G.deg b ≤ G.deg a) influencers).Nodup :=
      (List.perm_insertionSort _ influencers).nodup_iff.mpr hinf
    apply key
    · exact List.Sublist.nodup (List.take_sublist _ _) hsortnd
    · intro v hv
      exact hsubI v ((List.mem_insertionSort _).mp (List.mem_of_mem_take hv))
    · rw [List.length_take, List.length_insertionSort]
      exact Nat.min_eq_left (Nat.le_of_lt hbr)
  · have hm : minority_list G influencers frac sample = influencers ++ sample := by
      unfold minority_list
      rw [← htarget, if_neg hbr]
    rw [hm]
    have hle : influencers.length ≤ target := Nat.le_of_not_lt hbr
    have hs := hlen hle
    apply key
    · exact hinf.append hsnd fun a ha hb => hdisj a hb ha
    · intro v hv
      rcases List.mem_append.mp hv with h | h
      · exact hsubI v h
      · exact hsubS v h
    · rw [List.length_append]
      omega

/-- Witness for the amended C3, in the fill branch: two nodes, one
influencer, fraction 1, sample [1]; the labeling gets int(1 * 2) = 2 Red
nodes. -/
theorem minority_count_is_floor_target_w :
    (0 : ℚ) ≤ 1 ∧ (1 : ℚ) ≤ 1 ∧ twoNodeG.nodes.Nodup ∧ ([0] : List Nat).Nodup ∧
    (∀ v ∈ ([0] : List Nat), v ∈ twoNodeG.nodes) ∧ ([1] : List Nat).Nodup ∧
    (∀ v ∈ ([1] : List Nat), v ∈ twoNodeG.nodes) ∧
    (∀ v ∈ ([1] : List Nat), v ∉ ([0] : List Nat)) ∧
    countRed twoNodeG.nodes (assign_opinions twoNodeG [0] 1 [1]) =
      (Int.floor ((1 : ℚ) * (twoNodeG.nodes.length : ℚ))).toNat :=
  ⟨zero_le_one, le_refl 1, by decide, by decide, by decide, by decide, by decide, by decide,
    minority_count_is_floor_target twoNodeG [0] 1 [1] zero_le_one (le_refl 1)
      (by decide) (by decide) (by decide) (by decide) (by decide) (by decide)
      (by simp [twoNodeG])⟩

/-- C5 counterexample: two equal-degree influencers listed as [2, 1].
The source's stable degree-only sort keeps that order, so the capped
minority is [2]; the spec's ordering (degree descending, node identifier
ascending as secondary key) selects [1] instead. -/
theorem capped_minority_tie_cex :
    minority_list pairG [2, 1] (1/2) [] = [2] ∧
    spec_top_influencers pairG [2, 1] 1 = [1] := by
  constructor
  · have h : (Int.floor ((1/2 : ℚ) * (pairG.nodes.length : ℚ))).toNat = 1 := by
      norm_num [pairG]
    simp only [minority_list, h]
    decide
  · decide

/-- C5 amended: whenever the influencer count exceeds the target, the
assigned minority consists of exactly target-many influencers and every
kept influencer has degree at least that of every excluded one; between
equal-degree influencers the choice follows the stable sort of the
influencer set's iteration order, with no secondary key on the node
identifier. -/
theorem capped_minority_top_degrees (G : Graph) (influencers : List Nat)
    (frac : ℚ) (sample : List Nat)
    (hgt : (Int.floor (frac * (G.nodes.length : ℚ))).toNat < influencers.length) :
    (minority_list G influencers frac sample).length =
      (Int.floor (frac * (G.nodes.length : ℚ))).toNat ∧
    (∀ v ∈ minority_list G influencers frac sample, v ∈ influencers) ∧
    ∀ u ∈ minority_list G influencers frac sample, ∀ v ∈ influencers,
      v ∉ minority_list G influencers frac sample → G.deg v ≤ G.deg u := by
  set target := (Int.floor (frac * (G.nodes.length : ℚ))).toNat with htarget
  have hm : minority_list G influencers frac sample =
      (List.insertionSort (fun a b => G.deg b ≤ G.deg a) influencers).take target := by
    unfold minority_list
    rw [← htarget, if_pos hgt]
  haveI hTot : IsTotal Nat (fun a b => G.deg b ≤ G.deg a) :=
    ⟨fun a b => Nat.le_total (G.deg b) (G.deg a)⟩
  haveI hTrans : IsTrans Nat (fun a b => G.deg b ≤ G.deg a) :=
    ⟨fun _ _ _ h1 h2 => Nat.le_trans h2 h1⟩
  have hsorted : List.Sorted (fun a b => G.deg b ≤ G.deg a)
      (List.insertionSort (fun a b => G.deg b ≤ G.deg a) influencers) :=
    List.sorted_insertionSort _ influencers
  refine ⟨?_, ?_, ?_⟩
  · rw [hm, List.length_take, List.length_insertionSort]
    exact Nat.min_eq_left (Nat.le_of_lt hgt)
  · intro v hv
    rw [hm] at hv
    exact (List.mem_insertionSort _).mp (List.mem_of_mem_take hv)
  · intro u hu v hvinf hvnot
    rw [hm] at hu hvnot
    set s := List.insertionSort (fun a b => G.deg b ≤ G.deg a) influencers with hs
    have hsplit : s = s.take target ++ s.drop target := (List.take_append_drop _ _).symm
    have hpair : List.Pairwise (fun a b => G.deg b ≤ G.deg a)
        (s.take target ++ s.drop target) := by
      rw [← hsplit]
      exact hsorted
    have hcross := (List.pairwise_append.mp hpair).2.2
    have hvs : v ∈ s := (List.mem_insertionSort _).mpr hvinf
    have hvdrop : v ∈ s.drop target := by
      rcases List.mem_append.mp (hsplit ▸ hvs) with h | h
      · exact absurd h hvnot
      · exact h
    exact hcross u hu v hvdrop

/-- Witness for the amended C5: two-node graph, three zero-degree
influencers, fraction 1 (target 2): the kept minority has two of them and
the degree comparison holds. -/
theorem capped_minority_top_degrees_w :
    (Int.floor ((1 : ℚ) * (twoNodeG.nodes.length : ℚ))).toNat <
      ([5, 6, 7] : List Nat).length ∧
    ((minority_list twoNodeG [5, 6, 7] 1 []).length =
      (Int.floor ((1 : ℚ) * (twoNodeG.nodes.length : ℚ))).toNat ∧
    (∀ v ∈ minority_list twoNodeG [5, 6, 7] 1 [], v ∈ ([5, 6, 7] : List Nat)) ∧
    ∀ u ∈ minority_list twoNodeG [5, 6, 7] 1 [], ∀ v ∈ ([5, 6, 7] : List Nat),
      v ∉ minority_list twoNodeG [5, 6, 7] 1 [] →
        twoNodeG.deg v ≤ twoNodeG.deg u) :=
  ⟨by simp [twoNodeG], capped_minority_top_degrees twoNodeG [5, 6, 7] 1 []
    (by simp [twoNodeG])⟩

/-- Witness for C8 on the two-node path starting from all-Blue. -/
theorem threshold_fixed_point_within_n_w :
    ∃ t ≤ pairG.nodes.length, ∀ v ∈ pairG.nodes,
      threshold_update pairG ((threshold_update pairG)^[t] allBlue) v =
        (threshold_update pairG)^[t] allBlue v :=
  threshold_fixed_point_within_n pairG allBlue
